import Mathlib

/-!
# diffexfat: layout addressing, sector/cluster accessors, region classification

A shallow embedding of `diff/diffexfat.c` and `diff/list.h`.

* C integers are `Nat`/`Int` with the conversions of an LP64 target written out
  (`size_t`/`unsigned long` = 64 bit unsigned, `off_t`/`ssize_t` = 64 bit signed,
  `int` = 32 bit signed); a value that does not fit a signed type wraps.
* `pread`/`pwrite` are an oracle from the request to the value the call returns;
  every accessor returns its result together with the requests it issued.  The
  diagnostics of `pr_debug` and `pr_err` inside the accessors are not part of the model.
* The linked list of `list.h` lives in a block memory: a pointer is `NULL`, the
  address of one of the three global list heads, or the address of a `malloc`ed node.
  An access outside the object a pointer points to is undefined behaviour.
* `main` is modelled from the size comparison on: both files open, `pread` delivers
  the first `SECSIZE` bytes or the whole file if shorter, `popen` succeeds and the
  parsed offsets of the `cmp -l` lines are the input stream.
-/

namespace Diffexfat

/-! ## Machine integers -/

/-- Conversion of a signed value to `size_t` / `unsigned long`. -/
def to_u64 (z : Int) : Nat := (z % (2 ^ 64 : Int)).toNat

/-- Conversion of an unsigned 64-bit value to `off_t` / `ssize_t` (two's complement). -/
def to_i64 (n : Nat) : Int :=
  if n % 2 ^ 64 < 2 ^ 63 then ((n % 2 ^ 64 : Nat) : Int) else ((n % 2 ^ 64 : Nat) : Int) - 2 ^ 64

/-- Conversion of an unsigned value to `int` (two's complement, low 32 bits). -/
def to_i32 (n : Nat) : Int :=
  if n % 2 ^ 32 < 2 ^ 31 then ((n % 2 ^ 32 : Nat) : Int) else ((n % 2 ^ 32 : Nat) : Int) - 2 ^ 32

/-- The C expression `1 << s` on `int`.  For `s <= 30` this is `2 ^ s`; for larger
counts C leaves the shift undefined and the model takes the x86-64 result (count
masked to five bits, bit 31 is the sign). -/
def int_shl1 (s : Nat) : Int := to_i32 (2 ^ (s % 32))

/-! ## Boot sector fields -/

/-- Modelled from the spec: `struct exfat_bootsec` is declared nowhere under src; these
are the fields the code reads (`BytesPerSectorShift`, `SectorsPerClusterShift`,
`ClusterHeapOffset`, `ClusterCount`) and the one the spec names for the FAT boundary
(`FatOffset`). -/
structure exfat_bootsec where
  FatOffset : Nat
  ClusterHeapOffset : Nat
  ClusterCount : Nat
  BytesPerSectorShift : Nat
  SectorsPerClusterShift : Nat
deriving DecidableEq

/-- Modelled from the spec: the macro `EXFAT_FAT` is used by `main` and defined nowhere
under src; spec section 3: `fat_start = fat_offset_sectors * sector_size` with
`sector size = 1 << shift`. -/
def EXFAT_FAT (b : exfat_bootsec) : Nat := b.FatOffset * 2 ^ b.BytesPerSectorShift

/-- Modelled from the spec: the macro `EXFAT_HEAP` is used by `main` and defined nowhere
under src; spec section 3: `heap_start = cluster_heap_offset_sectors * sector_size`. -/
def EXFAT_HEAP (b : exfat_bootsec) : Nat := b.ClusterHeapOffset * 2 ^ b.BytesPerSectorShift

/-! ## Positioned transfers -/

/-- Direction of a positioned transfer: `pread` or `pwrite`. -/
inductive Dir where
  | rd
  | wr
deriving DecidableEq

/-- One call `pread(fd, data, len, off)` or `pwrite(fd, data, len, off)`. -/
structure Xfer where
  dir : Dir
  fd : Int
  len : Nat
  off : Int
deriving DecidableEq

/-- The kernel: the `ssize_t` a positioned transfer returns. -/
abbrev Kernel := Xfer → Int

/-- The C `get_sectors(data, f, index, count)`: `sector_size` is assigned
`boot.BytesPerSectorShift` itself; one `pread` of `count * sector_size` bytes at `index`;
`-1` when `pread` returns a negative value, else `0`. -/
def get_sectors (boot : exfat_bootsec) (sys : Kernel) (f : Int) (index : Int) (count : Nat) :
    Int × List Xfer :=
  let sector_size := boot.BytesPerSectorShift
  let req : Xfer := ⟨Dir.rd, f, (count * sector_size) % 2 ^ 64, index⟩
  if sys req < 0 then (-1, [req]) else (0, [req])

/-- The C `set_sectors(data, f, index, count)`: as `get_sectors`, with `pwrite`. -/
def set_sectors (boot : exfat_bootsec) (sys : Kernel) (f : Int) (index : Int) (count : Nat) :
    Int × List Xfer :=
  let sector_size := boot.BytesPerSectorShift
  let req : Xfer := ⟨Dir.wr, f, (count * sector_size) % 2 ^ 64, index⟩
  if sys req < 0 then (-1, [req]) else (0, [req])

/-- The C `get_sector(data, f, index)` is `get_sectors(data, f, index, 1)`. -/
def get_sector (boot : exfat_bootsec) (sys : Kernel) (f : Int) (index : Int) : Int × List Xfer :=
  get_sectors boot sys f index 1

/-- The C `set_sector(data, f, index)` is `set_sectors(data, f, index, 1)`. -/
def set_sector (boot : exfat_bootsec) (sys : Kernel) (f : Int) (index : Int) : Int × List Xfer :=
  set_sectors boot sys f index 1

/-- The C `size_t sector_size = 1 << boot.BytesPerSectorShift`. -/
def sector_size (boot : exfat_bootsec) : Nat := to_u64 (int_shl1 boot.BytesPerSectorShift)

/-- The C `size_t cluster_size = (1 << boot.SectorsPerClusterShift) * sector_size`. -/
def cluster_size (boot : exfat_bootsec) : Nat :=
  (to_u64 (int_shl1 boot.SectorsPerClusterShift) * sector_size boot) % 2 ^ 64

/-- The C `size_t clu_per_sec = cluster_size / sector_size`. -/
def clu_per_sec (boot : exfat_bootsec) : Nat := cluster_size boot / sector_size boot

/-- The C `off_t heap_start = boot.ClusterHeapOffset * sector_size`. -/
def heap_start (boot : exfat_bootsec) : Int :=
  to_i64 ((boot.ClusterHeapOffset * sector_size boot) % 2 ^ 64)

/-- The guard `index < 2 || index + num > boot.ClusterCount` of `get_clusters` and
`set_clusters`: `index` is `off_t`, `num` is `size_t`, the sum is unsigned 64 bit. -/
def cluster_range_bad (boot : exfat_bootsec) (index : Int) (num : Nat) : Bool :=
  decide (index < 2) || decide ((to_u64 index + num) % 2 ^ 64 > boot.ClusterCount)

/-- The second argument of the `get_sector` / `set_sector` call in `get_clusters` /
`set_clusters`, `heap_start + ((index - 2) * cluster_size)`, computed in `unsigned long`
and converted to the `int` parameter `f` it is passed for. -/
def cluster_arg_f (boot : exfat_bootsec) (index : Int) : Int :=
  to_i32 ((to_u64 (heap_start boot) + (to_u64 (index - 2) * cluster_size boot) % 2 ^ 64) % 2 ^ 64)

/-- The third argument of that call, `clu_per_sec * num`, converted to the `off_t`
parameter `index` it is passed for. -/
def cluster_arg_index (boot : exfat_bootsec) (num : Nat) : Int :=
  to_i64 ((clu_per_sec boot * num) % 2 ^ 64)

/-- The C `get_clusters(data, index, num)`: range guard, then
`get_sector(data, heap_start + (index - 2) * cluster_size, clu_per_sec * num)`. -/
def get_clusters (boot : exfat_bootsec) (sys : Kernel) (index : Int) (num : Nat) :
    Int × List Xfer :=
  if cluster_range_bad boot index num then (-1, [])
  else get_sector boot sys (cluster_arg_f boot index) (cluster_arg_index boot num)

/-- The C `set_clusters(data, index, num)`: range guard, then
`set_sector(data, heap_start + (index - 2) * cluster_size, clu_per_sec * num)`. -/
def set_clusters (boot : exfat_bootsec) (sys : Kernel) (index : Int) (num : Nat) :
    Int × List Xfer :=
  if cluster_range_bad boot index num then (-1, [])
  else set_sector boot sys (cluster_arg_f boot index) (cluster_arg_index boot num)

/-- The geometry of the spec's scenario A: sector size 512, 8 sectors per cluster, FAT at
sector 32, cluster heap at sector 800, 1000 clusters. -/
def scenarioA : exfat_bootsec := ⟨32, 800, 1000, 9, 3⟩

/-- The fields of an all-zero boot sector: sector-size shift 0 (sector size 1) and
cluster heap offset 0. -/
def zero_boot : exfat_bootsec := ⟨0, 0, 0, 0, 0⟩

/-- A kernel that always transfers everything it is asked for. -/
def full_kernel : Kernel := fun r => (r.len : Int)

/-! ## Region test of the classification loop -/

/-- The three regions; each one names the list the loop appends to. -/
inductive Region where
  | Boot
  | Fat
  | Data
deriving DecidableEq

/-- The branch the loop of `main` takes for the offset `x`:
`if (x < EXFAT_FAT(boot)) ... else if (x < EXFAT_HEAP(boot)) ... else ...`. -/
def loop_region (boot : exfat_bootsec) (x : Nat) : Region :=
  if x < EXFAT_FAT boot then Region.Boot
  else if x < EXFAT_HEAP boot then Region.Fat
  else Region.Data

/-! ## The linked list of `list.h` in a block memory -/

/-- The three global list heads `bootlist`, `fatlist`, `datalist` (each a `node_t *`). -/
inductive Glob where
  | bootlist
  | fatlist
  | datalist
deriving DecidableEq

/-- A pointer value: `NULL`, the address of a global list head (what `&bootlist` is), or
the address of a node obtained from `malloc`. -/
inductive Ptr where
  | null
  | glob (g : Glob)
  | heap (a : Nat)
deriving DecidableEq

/-- The C `struct node { uint64_t index; struct node *next; }`. -/
structure node_t where
  index : Nat
  next : Ptr
deriving DecidableEq

/-- The memory: the values of the three globals and the `malloc` arena.  Cell `a` of the
arena is the node at address `heap a`; `none` is a node that has been freed. -/
structure Mem where
  bootlist : Ptr
  fatlist : Ptr
  datalist : Ptr
  cells : List (Option node_t)
deriving DecidableEq

/-- Outcome of running a piece of code: a value, undefined behaviour, or the model ran
out of fuel. -/
inductive Res (α : Type) where
  | ok (a : α)
  | undef
  | fuel
deriving DecidableEq

/-- Read `p->next`.  `NULL` cannot be dereferenced; a global list head is an object of
one pointer, so a `next` field at offset 8 lies outside it; a freed or unallocated node
cannot be read. -/
def load_next (m : Mem) : Ptr → Res Ptr
  | Ptr.null => Res.undef
  | Ptr.glob _ => Res.undef
  | Ptr.heap a =>
    match m.cells[a]? with
    | some (some n) => Res.ok n.next
    | _ => Res.undef

/-- Read `p->index` of a node. -/
def load_index (m : Mem) : Ptr → Res Nat
  | Ptr.heap a =>
    match m.cells[a]? with
    | some (some n) => Res.ok n.index
    | _ => Res.undef
  | _ => Res.undef

/-- Write `p->next = q`. -/
def store_next (m : Mem) (p q : Ptr) : Res Mem :=
  match p with
  | Ptr.heap a =>
    match m.cells[a]? with
    | some (some n) => Res.ok ⟨m.bootlist, m.fatlist, m.datalist, m.cells.set a (some ⟨n.index, q⟩)⟩
    | _ => Res.undef
  | _ => Res.undef

/-- The node `malloc` returns next, and the memory once its two fields are written.
Allocation is taken to succeed (the code does not test the result of `malloc`). -/
def malloc_node (m : Mem) (i : Nat) (nx : Ptr) : Ptr × Mem :=
  (Ptr.heap m.cells.length, ⟨m.bootlist, m.fatlist, m.datalist, m.cells ++ [some ⟨i, nx⟩]⟩)

/-- The C `free(p)`: only a live `malloc`ed node may be freed. -/
def free (m : Mem) : Ptr → Res Mem
  | Ptr.null => Res.ok m
  | Ptr.glob _ => Res.undef
  | Ptr.heap a =>
    match m.cells[a]? with
    | some (some _) => Res.ok ⟨m.bootlist, m.fatlist, m.datalist, m.cells.set a none⟩
    | _ => Res.undef

/-- The loop of `last_node`, `while (node != NULL && node->next != NULL) node = node->next`,
with one unit of fuel per evaluation of the loop condition. -/
def last_node_fuel : Nat → Mem → Ptr → Res Ptr
  | 0, _, _ => Res.fuel
  | k + 1, m, node =>
    if node = Ptr.null then Res.ok node
    else
      match load_next m node with
      | Res.ok nx => if nx = Ptr.null then Res.ok node else last_node_fuel k m nx
      | Res.undef => Res.undef
      | Res.fuel => Res.fuel

/-- The C `last_node(node)`.  A chain of distinct arena nodes has at most `cells.length`
members, so this fuel is enough for every acyclic list. -/
def last_node (m : Mem) (node : Ptr) : Res Ptr := last_node_fuel (m.cells.length + 1) m node

/-- The C `insert_node(head, i)`.  With `head == NULL` the new node is assigned to the
parameter `head` only, so the caller sees nothing of it; otherwise the new node is
linked in right after `head`. -/
def insert_node (m : Mem) (head : Ptr) (i : Nat) : Res Mem :=
  if head = Ptr.null then Res.ok (malloc_node m i Ptr.null).2
  else
    match load_next m head with
    | Res.ok nx => store_next (malloc_node m i nx).2 head (malloc_node m i nx).1
    | Res.undef => Res.undef
    | Res.fuel => Res.fuel

/-- The C `append_node(head, i)` is `insert_node(last_node(head), i)`. -/
def append_node (m : Mem) (head : Ptr) (i : Nat) : Res Mem :=
  match last_node m head with
  | Res.ok l => insert_node m l i
  | Res.undef => Res.undef
  | Res.fuel => Res.fuel

/-- The C `delete_node(node)`. -/
def delete_node (m : Mem) (node : Ptr) : Res Mem :=
  if node = Ptr.null then Res.ok m
  else
    match load_next m node with
    | Res.ok tmp =>
      if tmp = Ptr.null then free m node
      else
        match load_next m tmp with
        | Res.ok tn =>
          match store_next m node tn with
          | Res.ok m1 =>
            match free m1 tmp with
            | Res.ok m2 => free m2 node
            | Res.undef => Res.undef
            | Res.fuel => Res.fuel
          | Res.undef => Res.undef
          | Res.fuel => Res.fuel
        | Res.undef => Res.undef
        | Res.fuel => Res.fuel
    | Res.undef => Res.undef
    | Res.fuel => Res.fuel

/-- What the program writes to its output stream. -/
inductive Line where
  | size_differs
  | read_failed
  | boot_differs
  | newline
  | heading (r : Region)
  | item (v : Nat)
  | null_end
deriving DecidableEq

/-- The loop of `print_node`: step to `node->next` first, then print that node's
`index`; `NULL` is printed at the end. -/
def print_node_fuel : Nat → Mem → Ptr → Res (List Line)
  | 0, _, _ => Res.fuel
  | k + 1, m, node =>
    if node = Ptr.null then Res.ok [Line.null_end]
    else
      match load_next m node with
      | Res.ok nx =>
        if nx = Ptr.null then Res.ok [Line.null_end]
        else
          match load_index m nx with
          | Res.ok v =>
            match print_node_fuel k m nx with
            | Res.ok ls => Res.ok (Line.item v :: ls)
            | Res.undef => Res.undef
            | Res.fuel => Res.fuel
          | Res.undef => Res.undef
          | Res.fuel => Res.fuel
      | Res.undef => Res.undef
      | Res.fuel => Res.fuel

/-- The C `print_node(node)`. -/
def print_node (m : Mem) (node : Ptr) : Res (List Line) :=
  print_node_fuel (m.cells.length + 1) m node

/-- The nodes reachable from `p` hold exactly the values `vs`, in order, and the chain
ends in `NULL`. -/
def is_list (m : Mem) : Ptr → List Nat → Bool
  | p, [] => decide (p = Ptr.null)
  | Ptr.heap a, v :: vs =>
    match m.cells[a]? with
    | some (some n) => decide (n.index = v) && is_list m n.next vs
    | _ => false
  | _, _ :: _ => false

/-- The memory after a new node holding `i` has been allocated and linked in after the
node at `a`, which holds `vl` and was the end of its chain. -/
def link_after (m : Mem) (a vl i : Nat) : Mem :=
  ⟨m.bootlist, m.fatlist, m.datalist,
    (m.cells ++ [some (node_t.mk i Ptr.null)]).set a (some (node_t.mk vl (Ptr.heap m.cells.length)))⟩

/-! ## `main` -/

/-- Modelled from the spec: the macro `SECSIZE` is used by `main` and defined nowhere
under src; spec section 4.1: a fixed 512-byte boot-sector buffer. -/
def SECSIZE : Nat := 512

/-- How far `main` got: still running, returned `ret`, hit undefined behaviour, or the
model ran out of fuel. -/
inductive Status where
  | running
  | returned (ret : Int)
  | undefined
  | no_fuel
deriving DecidableEq

/-- A run of `main`: the output so far, the `append_node` calls entered so far (list
and offset), the memory, and the status. -/
structure Run where
  out : List Line
  calls : List (Region × Nat)
  mem : Mem
  status : Status
deriving DecidableEq

/-- The globals at program start: `bootlist`, `fatlist`, `datalist` are `NULL`. -/
def Mem.init : Mem := ⟨Ptr.null, Ptr.null, Ptr.null, []⟩

/-- Run the next statement only if the program is still running. -/
def Run.next (r : Run) (f : Run → Run) : Run :=
  match r.status with
  | Status.running => f r
  | _ => r

/-- Record the outcome of a statement that updates the memory. -/
def Run.update (r : Run) : Res Mem → Run
  | Res.ok m => ⟨r.out, r.calls, m, Status.running⟩
  | Res.undef => ⟨r.out, r.calls, r.mem, Status.undefined⟩
  | Res.fuel => ⟨r.out, r.calls, r.mem, Status.no_fuel⟩

/-- Record the outcome of a statement that prints. -/
def Run.print (r : Run) : Res (List Line) → Run
  | Res.ok ls => ⟨r.out ++ ls, r.calls, r.mem, Status.running⟩
  | Res.undef => ⟨r.out, r.calls, r.mem, Status.undefined⟩
  | Res.fuel => ⟨r.out, r.calls, r.mem, Status.no_fuel⟩

/-- The address `main` passes for a region: `&bootlist`, `&fatlist` or `&datalist`. -/
def list_addr : Region → Ptr
  | Region.Boot => Ptr.glob Glob.bootlist
  | Region.Fat => Ptr.glob Glob.fatlist
  | Region.Data => Ptr.glob Glob.datalist

/-- The value `main` passes to `print_node`: `bootlist`, `fatlist` or `datalist`. -/
def list_value (m : Mem) : Region → Ptr
  | Region.Boot => m.bootlist
  | Region.Fat => m.fatlist
  | Region.Data => m.datalist

/-- One iteration of the `while (fgets ...)` loop for the parsed offset `x`: the region
test, then `append_node(&bootlist, x)`, `append_node(&fatlist, x)` or
`append_node(&datalist, x)`. -/
def loop_step (boot : exfat_bootsec) (r : Run) (x : Nat) : Run :=
  r.next fun r =>
    Run.update ⟨r.out, r.calls ++ [(loop_region boot x, x)], r.mem, r.status⟩
      (append_node r.mem (list_addr (loop_region boot x)) x)

/-- The C `pr_msg("===== ... Region =====\n"); print_node(list);` for one region. -/
def print_region (g : Region) (r : Run) : Run :=
  r.next fun r =>
    Run.print ⟨r.out ++ [Line.heading g], r.calls, r.mem, r.status⟩
      (print_node r.mem (list_value r.mem g))

/-- The C `delete_node(&bootlist)`, `delete_node(&fatlist)` or `delete_node(&datalist)`. -/
def delete_region (g : Region) (r : Run) : Run :=
  r.next fun r => r.update (delete_node r.mem (list_addr g))

/-- Lines 420 to 452 of `main`, from the loop over the offsets `cmp -l` printed to
`return ret` with `ret == 0`. -/
def classify (boot : exfat_bootsec) (stream : List Nat) : Run :=
  let r0 : Run := ⟨[], [], Mem.init, Status.running⟩
  let r1 := stream.foldl (loop_step boot) r0
  let r2 := r1.next fun r => ⟨r.out ++ [Line.newline], r.calls, r.mem, r.status⟩
  let r3 := print_region Region.Data (print_region Region.Fat (print_region Region.Boot r2))
  let r4 := delete_region Region.Data (delete_region Region.Fat (delete_region Region.Boot r3))
  r4.next fun r => ⟨r.out, r.calls, r.mem, Status.returned 0⟩

/-- The static buffer `boot` (or `boot2`) after `pread(fd, &boot, SECSIZE, 0)`: the
first `SECSIZE` bytes of the image, the rest still zero. -/
def boot_buf (img : List Nat) : List Nat :=
  img.take SECSIZE ++ List.replicate (SECSIZE - (img.take SECSIZE).length) 0

/-- The C `ret = -count` with `count` a `size_t` and `ret` an `int`. -/
def neg_count (count : Nat) : Int := to_i32 ((2 ^ 64 - count % 2 ^ 64) % 2 ^ 64)

/-- The C `main`, from the size comparison on, for two images that could be opened (`fd0` is
the descriptor of the first) and the offsets `stream` that `cmp -l` would print. The
struct declaration being absent, `view` is the overlay of `struct exfat_bootsec` on the
bytes of the buffer. -/
def main (view : List Nat → exfat_bootsec) (fd0 : Int) (img1 img2 : List Nat)
    (stream : List Nat) : Run :=
  if img1.length ≠ img2.length then ⟨[Line.size_differs], [], Mem.init, Status.returned (-fd0)⟩
  else if (img2.take SECSIZE).length ≠ (img1.take SECSIZE).length then
    ⟨[Line.read_failed], [], Mem.init, Status.returned (neg_count (img1.take SECSIZE).length)⟩
  else if boot_buf img1 ≠ boot_buf img2 then
    ⟨[Line.boot_differs], [], Mem.init, Status.returned (neg_count (img1.take SECSIZE).length)⟩
  else classify (view (boot_buf img1)) stream

/-- An image of 600 zero bytes. -/
def image_a : List Nat := List.replicate 599 0 ++ [0]

/-- An image of 600 bytes that differs from `image_a` in its last byte only, the byte
`cmp -l` numbers 600. -/
def image_b : List Nat := List.replicate 599 0 ++ [1]

/-- A memory holding the list `[7, 8]` at nodes 0 and 1. -/
def mem78 : Mem := ⟨Ptr.null, Ptr.null, Ptr.null, [some ⟨7, Ptr.heap 1⟩, some ⟨8, Ptr.null⟩]⟩

/-! ## Region test -/

/-- C1: when `0 < fat_start <= heap_start`, the region test of the loop sends `x` to Boot
exactly when `x < fat_start`, to FAT exactly when `fat_start <= x < heap_start`, and to
Data exactly when `heap_start <= x`; the Boot interval starts at offset 0. -/
theorem loop_region_partition (b : exfat_bootsec) (x : Nat)
    (hpos : 0 < EXFAT_FAT b) (hle : EXFAT_FAT b ≤ EXFAT_HEAP b) :
    (loop_region b x = Region.Boot ↔ x < EXFAT_FAT b) ∧
    (loop_region b x = Region.Fat ↔ EXFAT_FAT b ≤ x ∧ x < EXFAT_HEAP b) ∧
    (loop_region b x = Region.Data ↔ EXFAT_HEAP b ≤ x) ∧
    loop_region b 0 = Region.Boot := by
  unfold loop_region
  refine ⟨?_, ?_, ?_, ?_⟩
  · by_cases h1 : x < EXFAT_FAT b
    · simp [h1]
    · by_cases h2 : x < EXFAT_HEAP b <;> simp [h1, h2]
  · by_cases h1 : x < EXFAT_FAT b
    · have h3 : ¬ EXFAT_FAT b ≤ x := by omega
      simp [h1, h3]
    · have h3 : EXFAT_FAT b ≤ x := by omega
      by_cases h2 : x < EXFAT_HEAP b <;> simp [h1, h2, h3]
  · by_cases h1 : x < EXFAT_FAT b
    · have h3 : ¬ EXFAT_HEAP b ≤ x := by omega
      simp [h1, h3]
    · by_cases h2 : x < EXFAT_HEAP b
      · have h3 : ¬ EXFAT_HEAP b ≤ x := by omega
        simp [h1, h2, h3]
      · have h3 : EXFAT_HEAP b ≤ x := by omega
        simp [h1, h2, h3]
  · simp [hpos]

/-- Scenario A geometry, offset 20000. -/
theorem loop_region_partition_witness :
    (0 < EXFAT_FAT scenarioA ∧ EXFAT_FAT scenarioA ≤ EXFAT_HEAP scenarioA) ∧
    ((loop_region scenarioA 20000 = Region.Boot ↔ 20000 < EXFAT_FAT scenarioA) ∧
     (loop_region scenarioA 20000 = Region.Fat ↔
        EXFAT_FAT scenarioA ≤ 20000 ∧ 20000 < EXFAT_HEAP scenarioA) ∧
     (loop_region scenarioA 20000 = Region.Data ↔ EXFAT_HEAP scenarioA ≤ 20000) ∧
     loop_region scenarioA 0 = Region.Boot) :=
  ⟨⟨by decide, by decide⟩, loop_region_partition scenarioA 20000 (by decide) (by decide)⟩

/-! ## Sector and cluster accessors -/

/-- The body of `get_sectors` with its two locals substituted. -/
theorem get_sectors_eq (boot : exfat_bootsec) (sys : Kernel) (f index : Int) (count : Nat) :
    get_sectors boot sys f index count =
      if sys ⟨Dir.rd, f, (count * boot.BytesPerSectorShift) % 2 ^ 64, index⟩ < 0
      then (-1, [⟨Dir.rd, f, (count * boot.BytesPerSectorShift) % 2 ^ 64, index⟩])
      else (0, [⟨Dir.rd, f, (count * boot.BytesPerSectorShift) % 2 ^ 64, index⟩]) := rfl

/-- The body of `set_sectors` with its two locals substituted. -/
theorem set_sectors_eq (boot : exfat_bootsec) (sys : Kernel) (f index : Int) (count : Nat) :
    set_sectors boot sys f index count =
      if sys ⟨Dir.wr, f, (count * boot.BytesPerSectorShift) % 2 ^ 64, index⟩ < 0
      then (-1, [⟨Dir.wr, f, (count * boot.BytesPerSectorShift) % 2 ^ 64, index⟩])
      else (0, [⟨Dir.wr, f, (count * boot.BytesPerSectorShift) % 2 ^ 64, index⟩]) := rfl


/-- C3: with `ClusterCount = 1000` the cluster indices 1000 and 1001 lie in
`[2, ClusterCount + 2)`, yet a request for one cluster at either index is rejected by the
range guard of `get_clusters` and of `set_clusters` (result `-1`, nothing transferred). -/
theorem clusters_reject_last_two :
    ((2 : Int) ≤ 1001 ∧ (1001 : Int) < scenarioA.ClusterCount + 2) ∧
    get_clusters scenarioA full_kernel 1000 1 = (-1, []) ∧
    get_clusters scenarioA full_kernel 1001 1 = (-1, []) ∧
    set_clusters scenarioA full_kernel 1000 1 = (-1, []) ∧
    set_clusters scenarioA full_kernel 1001 1 = (-1, []) := by
  decide

/-- C4, as stated, fails: index 1002 is at least `ClusterCount + 2 = 1002`, the count
`2 ^ 64 - 1002` is at least 1, the unsigned sum wraps to 0, the guard passes and a
transfer is issued. -/
theorem clusters_wrap_passes_guard :
    ((scenarioA.ClusterCount : Int) + 2 ≤ 1002 ∧ 1 ≤ 2 ^ 64 - 1002) ∧
    get_clusters scenarioA full_kernel 1002 (2 ^ 64 - 1002) =
      (0, [⟨Dir.rd, 4505600, 9, -8016⟩]) ∧
    set_clusters scenarioA full_kernel 1002 (2 ^ 64 - 1002) =
      (0, [⟨Dir.wr, 4505600, 9, -8016⟩]) := by
  decide

/-- C4, amended: for every geometry, every index below 2 or at least `ClusterCount + 2`,
and every count of at least 1 for which `index + count` does not wrap past `2 ^ 64`,
`get_clusters` and `set_clusters` return `-1` and issue no read or write. -/
theorem clusters_out_of_range_fail (boot : exfat_bootsec) (sys : Kernel) (index : Int)
    (num : Nat) (hidx : index < 2 ∨ (boot.ClusterCount : Int) + 2 ≤ index) (hnum : 1 ≤ num)
    (hwrap : index < 2 ∨ index + (num : Int) < 2 ^ 64) :
    get_clusters boot sys index num = (-1, []) ∧ set_clusters boot sys index num = (-1, []) := by
  have hbad : cluster_range_bad boot index num = true := by
    unfold cluster_range_bad
    by_cases h2 : index < 2
    · simp [h2]
    · have hge : (boot.ClusterCount : Int) + 2 ≤ index := by
        rcases hidx with h | h
        · exact absurd h h2
        · exact h
      have hlt : index + (num : Int) < 2 ^ 64 := by
        rcases hwrap with h | h
        · exact absurd h h2
        · exact h
      have h0 : 0 ≤ index := by omega
      have hi : index < 2 ^ 64 := by omega
      have hu : to_u64 index = index.toNat := by
        unfold to_u64
        rw [Int.emod_eq_of_lt h0 hi]
      have hs : index.toNat + num < 2 ^ 64 := by omega
      have hc : boot.ClusterCount < index.toNat + num := by omega
      simp only [hu, Nat.mod_eq_of_lt hs, Bool.or_eq_true, decide_eq_true_eq]
      right
      exact hc
  simp [get_clusters, set_clusters, hbad]

/-- Scenario A geometry, index 1002, one cluster. -/
theorem clusters_out_of_range_fail_witness :
    (((1002 : Int) < 2 ∨ (scenarioA.ClusterCount : Int) + 2 ≤ 1002) ∧ 1 ≤ 1 ∧
      ((1002 : Int) < 2 ∨ (1002 : Int) + ((1 : Nat) : Int) < 2 ^ 64)) ∧
    (get_clusters scenarioA full_kernel 1002 1 = (-1, []) ∧
      set_clusters scenarioA full_kernel 1002 1 = (-1, [])) :=
  ⟨by decide,
    clusters_out_of_range_fail scenarioA full_kernel 1002 1 (by decide) (by decide) (by decide)⟩

/-- C5: in scenario A (heap at byte 409600, cluster size 4096) the successful request for
cluster 2, count 1, issues one transfer on descriptor 409600 of 9 bytes at offset 8, not
the transfer of 4096 bytes at offset 409600 the mapping calls for. -/
theorem clusters_transfer_scenarioA :
    get_clusters scenarioA full_kernel 2 1 = (0, [⟨Dir.rd, 409600, 9, 8⟩]) ∧
    set_clusters scenarioA full_kernel 2 1 = (0, [⟨Dir.wr, 409600, 9, 8⟩]) ∧
    (heap_start scenarioA + (2 - 2) * (cluster_size scenarioA : Int) = 409600 ∧
      1 * cluster_size scenarioA = 4096) := by
  decide

/-- C6, as stated, fails: with sector-size shift 9, `index = 1`, `count = 2` the transfer
starts at byte 1 and is 18 bytes long; it is not the range of 1024 bytes at byte 512. -/
theorem sectors_not_scaled :
    (get_sectors scenarioA full_kernel 3 1 2).2 = [⟨Dir.rd, 3, 18, 1⟩] ∧
    (set_sectors scenarioA full_kernel 3 1 2).2 = [⟨Dir.wr, 3, 18, 1⟩] ∧
    (get_sectors scenarioA full_kernel 3 1 2).2 ≠ [⟨Dir.rd, 3, 2 * 2 ^ 9, 1 * 2 ^ 9⟩] ∧
    (set_sectors scenarioA full_kernel 3 1 2).2 ≠ [⟨Dir.wr, 3, 2 * 2 ^ 9, 1 * 2 ^ 9⟩] := by
  decide

/-- C6, amended: for every geometry, descriptor, index and count, `get_sectors` issues
exactly one `pread` and `set_sectors` exactly one `pwrite`, on the descriptor given, that
starts at byte offset `index` itself (the argument is a byte offset, not a sector
number). -/
theorem sectors_start_at_index (boot : exfat_bootsec) (sys : Kernel) (f index : Int)
    (count : Nat) :
    ∃ n, (get_sectors boot sys f index count).2 = [⟨Dir.rd, f, n, index⟩] ∧
      (set_sectors boot sys f index count).2 = [⟨Dir.wr, f, n, index⟩] := by
  refine ⟨(count * boot.BytesPerSectorShift) % 2 ^ 64, ?_, ?_⟩
  · rw [get_sectors_eq]
    split <;> rfl
  · rw [set_sectors_eq]
    split <;> rfl

/-- C7, as stated, fails: a kernel that transfers 3 of the 9 bytes requested makes
`get_sectors` and `set_sectors` return `0`. -/
theorem sectors_short_transfer_succeeds :
    get_sectors scenarioA (fun _ => 3) 3 0 1 = (0, [⟨Dir.rd, 3, 9, 0⟩]) ∧
    set_sectors scenarioA (fun _ => 3) 3 0 1 = (0, [⟨Dir.wr, 3, 9, 0⟩]) := by
  decide

/-- C7, amended: `get_sectors` and `set_sectors` return `-1` exactly when the underlying
`pread` / `pwrite` returns a negative value, and `0` for every non-negative transfer
count, equal to the requested length or not. -/
theorem sectors_fail_iff_negative (boot : exfat_bootsec) (sys : Kernel) (f index : Int)
    (count : Nat) :
    ((get_sectors boot sys f index count).1 = -1 ↔
        sys ⟨Dir.rd, f, (count * boot.BytesPerSectorShift) % 2 ^ 64, index⟩ < 0) ∧
    ((get_sectors boot sys f index count).1 = 0 ↔
        0 ≤ sys ⟨Dir.rd, f, (count * boot.BytesPerSectorShift) % 2 ^ 64, index⟩) ∧
    ((set_sectors boot sys f index count).1 = -1 ↔
        sys ⟨Dir.wr, f, (count * boot.BytesPerSectorShift) % 2 ^ 64, index⟩ < 0) ∧
    ((set_sectors boot sys f index count).1 = 0 ↔
        0 ≤ sys ⟨Dir.wr, f, (count * boot.BytesPerSectorShift) % 2 ^ 64, index⟩) := by
  rw [get_sectors_eq, set_sectors_eq]
  generalize sys ⟨Dir.rd, f, (count * boot.BytesPerSectorShift) % 2 ^ 64, index⟩ = r
  generalize sys ⟨Dir.wr, f, (count * boot.BytesPerSectorShift) % 2 ^ 64, index⟩ = w
  refine ⟨?_, ?_, ?_, ?_⟩
  · by_cases h : r < 0 <;> simp [h]
  · by_cases h : r < 0
    · have h3 : ¬ 0 ≤ r := by omega
      simp [h, h3]
    · have h3 : 0 ≤ r := by omega
      simp [h, h3]
  · by_cases h : w < 0 <;> simp [h]
  · by_cases h : w < 0
    · have h3 : ¬ 0 ≤ w := by omega
      simp [h, h3]
    · have h3 : 0 ≤ w := by omega
      simp [h, h3]

/-! ## `main` -/

/-- The C `append_node` on the address of a global list head reads past that object. -/
theorem append_node_glob (m : Mem) (g : Glob) (x : Nat) :
    append_node m (Ptr.glob g) x = Res.undef := by
  simp [append_node, last_node, last_node_fuel, load_next]

/-- Once `main` has stopped, the remaining iterations of the loop do nothing. -/
theorem foldl_loop_step_stopped (boot : exfat_bootsec) (xs : List Nat) (r : Run)
    (h : r.status ≠ Status.running) : xs.foldl (loop_step boot) r = r := by
  induction xs generalizing r with
  | nil => rfl
  | cons x xs ih =>
    have hstep : loop_step boot r x = r := by
      unfold loop_step Run.next
      split
      · rename_i hs
        exact absurd hs h
      · rfl
    rw [List.foldl_cons, hstep]
    exact ih r h

/-- On a non-empty stream the classification stage stops inside the first
`append_node` call. -/
theorem classify_cons (boot : exfat_bootsec) (x : Nat) (xs : List Nat) :
    classify boot (x :: xs) =
      ⟨[], [(loop_region boot x, x)], Mem.init, Status.undefined⟩ := by
  have h1 : loop_step boot ⟨[], [], Mem.init, Status.running⟩ x =
      ⟨[], [(loop_region boot x, x)], Mem.init, Status.undefined⟩ := by
    cases hr : loop_region boot x <;>
      simp [loop_step, Run.next, Run.update, list_addr, append_node_glob, hr]
  unfold classify
  simp only [List.foldl_cons, h1]
  rw [foldl_loop_step_stopped boot xs _ (by simp)]
  rfl

/-- The C `ret = -count` is `-count` for the byte counts a read of `SECSIZE` bytes can give. -/
theorem neg_count_small (c : Nat) (h : c ≤ SECSIZE) : neg_count c = -(c : Int) := by
  unfold SECSIZE at h
  unfold neg_count to_i32
  norm_num
  split <;> omega

/-- C2: in scenario A the region test picks Boot, FAT, Data for the offsets 100 (or 600),
20000, 500000, but for the stream `[100, 20000, 500000]`, as for `[600, 20000, 500000]`,
the run stops in the first call `append_node(&bootlist, x)` on undefined behaviour:
nothing is printed and the three lists are still empty.  Passing the value of `bootlist`
instead would not build a list either (the head stays `NULL`), and `print_node` never
shows the node it is handed. -/
theorem classify_scenarioA_builds_nothing :
    (loop_region scenarioA 100 = Region.Boot ∧ loop_region scenarioA 600 = Region.Boot ∧
      loop_region scenarioA 20000 = Region.Fat ∧ loop_region scenarioA 500000 = Region.Data) ∧
    classify scenarioA [100, 20000, 500000] =
      ⟨[], [(Region.Boot, 100)], Mem.init, Status.undefined⟩ ∧
    classify scenarioA [600, 20000, 500000] =
      ⟨[], [(Region.Boot, 600)], Mem.init, Status.undefined⟩ ∧
    append_node Mem.init Mem.init.bootlist 600 =
      Res.ok ⟨Ptr.null, Ptr.null, Ptr.null, [some ⟨600, Ptr.null⟩]⟩ ∧
    print_node mem78 (Ptr.heap 0) = Res.ok [Line.item 8, Line.null_end] := by
  decide

/-- When the sizes and the boot sector buffers agree, `main` reaches the classification
stage with the fields of the first buffer. -/
theorem main_eq_classify (view : List Nat → exfat_bootsec) (fd0 : Int)
    (img1 img2 : List Nat) (stream : List Nat) (hlen : img1.length = img2.length)
    (hboot : boot_buf img1 = boot_buf img2) :
    main view fd0 img1 img2 stream = classify (view (boot_buf img1)) stream := by
  have hcnt : (img2.take SECSIZE).length = (img1.take SECSIZE).length := by
    simp [List.length_take, hlen]
  unfold main
  simp [hlen, hcnt, hboot]

/-- The boot sector buffer of an image that starts with at least `SECSIZE` zero bytes. -/
theorem boot_buf_zeros (n : Nat) (rest : List Nat) (h : SECSIZE ≤ n) :
    boot_buf (List.replicate n 0 ++ rest) = List.replicate SECSIZE 0 := by
  have hlen : SECSIZE ≤ (List.replicate n (0 : Nat)).length := by
    rw [List.length_replicate]
    exact h
  unfold boot_buf
  rw [List.take_append_of_le_length hlen, List.take_replicate, min_eq_left h,
    List.length_replicate, Nat.sub_self]
  exact List.append_nil _

/-- The two sample images have the same size and the same all-zero boot sector. -/
theorem image_ab_boot : image_a.length = image_b.length ∧ boot_buf image_a = boot_buf image_b := by
  constructor
  · unfold image_a image_b
    rw [List.length_append, List.length_append, List.length_singleton, List.length_singleton]
  · unfold image_a image_b
    rw [boot_buf_zeros 599 [0] (by decide), boot_buf_zeros 599 [1] (by decide)]

/-- C8: for two images of equal length whose bytes differ somewhere in the first
`SECSIZE` bytes, `main` prints the boot-sector message and returns a non-zero `ret`
without entering the loop: no `append_node` call, no region output, memory untouched. -/
theorem main_boot_mismatch_aborts (view : List Nat → exfat_bootsec) (fd0 : Int)
    (img1 img2 : List Nat) (stream : List Nat) (hlen : img1.length = img2.length)
    (hdiff : ∃ i, i < SECSIZE ∧ i < img1.length ∧ img1[i]? ≠ img2[i]?) :
    ∃ ret, ret ≠ 0 ∧
      main view fd0 img1 img2 stream =
        ⟨[Line.boot_differs], [], Mem.init, Status.returned ret⟩ := by
  obtain ⟨i, hi, hil, hne⟩ := hdiff
  have hcnt : (img2.take SECSIZE).length = (img1.take SECSIZE).length := by
    simp [List.length_take, hlen]
  have hbuf : boot_buf img1 ≠ boot_buf img2 := by
    intro heq
    unfold boot_buf at heq
    have htake : img1.take SECSIZE = img2.take SECSIZE :=
      (List.append_inj heq hcnt.symm).1
    have h1 : (img1.take SECSIZE)[i]? = img1[i]? := by
      rw [List.getElem?_take]
      simp [hi]
    have h2 : (img2.take SECSIZE)[i]? = img2[i]? := by
      rw [List.getElem?_take]
      simp [hi]
    apply hne
    rw [← h1, ← h2, htake]
  have hpos : 1 ≤ (img1.take SECSIZE).length := by
    rw [List.length_take]
    have : 0 < SECSIZE := by decide
    omega
  have hle : (img1.take SECSIZE).length ≤ SECSIZE := by
    rw [List.length_take]
    omega
  refine ⟨neg_count (img1.take SECSIZE).length, ?_, ?_⟩
  · rw [neg_count_small _ hle]
    omega
  · unfold main
    simp [hlen, hcnt, hbuf]

/-- Two one-byte images `[1]` and `[2]`. -/
theorem main_boot_mismatch_aborts_witness :
    ([1].length = [2].length ∧ ∃ i, i < SECSIZE ∧ i < [1].length ∧ [1][i]? ≠ [2][i]?) ∧
    ∃ ret, ret ≠ 0 ∧
      main (fun _ => scenarioA) 3 [1] [2] [600] =
        ⟨[Line.boot_differs], [], Mem.init, Status.returned ret⟩ :=
  ⟨⟨rfl, 0, by decide, by decide, by decide⟩,
    main_boot_mismatch_aborts (fun _ => scenarioA) 3 [1] [2] [600] rfl
      ⟨0, by decide, by decide, by decide⟩⟩

/-- C9, as stated, fails: an all-zero boot sector gives sector-size shift 0 (sector
size 1) and cluster heap offset 0, yet two images that share it are not rejected.  Two
identical images reach the classification stage and the three region headings are
printed; for two images that differ in byte 600 only, the region test is evaluated on
those fields and sends offset 600 to Data. -/
theorem main_accepts_zero_boot_sector :
    (sector_size zero_boot = 1 ∧ zero_boot.ClusterHeapOffset = 0) ∧
    main (fun _ => zero_boot) 3 image_a image_a [] =
      ⟨[Line.newline, Line.heading Region.Boot, Line.null_end, Line.heading Region.Fat,
        Line.null_end, Line.heading Region.Data, Line.null_end], [], Mem.init,
        Status.undefined⟩ ∧
    (main (fun _ => zero_boot) 3 image_a image_b [600]).calls = [(Region.Data, 600)] := by
  refine ⟨by decide, ?_, ?_⟩
  · rw [main_eq_classify _ _ _ _ _ rfl rfl]
    decide
  · rw [main_eq_classify _ _ _ _ _ image_ab_boot.1 image_ab_boot.2, classify_cons]
    decide

/-- C9, amended: `main` does no range validation of the boot-sector fields.  For every
overlay of the fields and every two images of equal length with byte-identical boot
sector buffers, whatever the field values, `main` runs the classification stage on those
fields as they are, and the region test of the first offset is evaluated against the
boundaries computed from them. -/
theorem main_classifies_unvalidated (view : List Nat → exfat_bootsec) (fd0 : Int)
    (img1 img2 : List Nat) (stream : List Nat) (hlen : img1.length = img2.length)
    (hboot : boot_buf img1 = boot_buf img2) :
    main view fd0 img1 img2 stream = classify (view (boot_buf img1)) stream ∧
    ∀ x xs, stream = x :: xs →
      (main view fd0 img1 img2 stream).calls = [(loop_region (view (boot_buf img1)) x, x)] := by
  have hm := main_eq_classify view fd0 img1 img2 stream hlen hboot
  refine ⟨hm, ?_⟩
  intro x xs hs
  rw [hm, hs, classify_cons]

/-- Two images holding the same single byte, overlay giving the all-zero fields. -/
theorem main_classifies_unvalidated_witness :
    ([0].length = [0].length ∧ boot_buf [0] = boot_buf [0]) ∧
    (main (fun _ => zero_boot) 3 [0] [0] [600] = classify zero_boot [600] ∧
      ∀ x xs, [600] = x :: xs →
        (main (fun _ => zero_boot) 3 [0] [0] [600]).calls = [(loop_region zero_boot x, x)]) :=
  ⟨⟨rfl, rfl⟩, main_classifies_unvalidated (fun _ => zero_boot) 3 [0] [0] [600] rfl rfl⟩

/-! ## The linked list -/

theorem is_list_nil (m : Mem) (p : Ptr) : is_list m p [] = true ↔ p = Ptr.null := by
  cases p <;> simp [is_list]

theorem is_list_heap_cons (m : Mem) (a v : Nat) (vs : List Nat) :
    is_list m (Ptr.heap a) (v :: vs) =
      match m.cells[a]? with
      | some (some n) => decide (n.index = v) && is_list m n.next vs
      | _ => false := by
  rw [is_list]

theorem is_list_cons (m : Mem) (p : Ptr) (v : Nat) (vs : List Nat) :
    is_list m p (v :: vs) = true ↔
      ∃ a nx, p = Ptr.heap a ∧ m.cells[a]? = some (some ⟨v, nx⟩) ∧ is_list m nx vs = true := by
  cases p with
  | null => simp [is_list]
  | glob g => simp [is_list]
  | heap a =>
    rw [is_list_heap_cons]
    constructor
    · intro h
      cases hc : m.cells[a]? with
      | none => simp [hc] at h
      | some o =>
        cases o with
        | none => simp [hc] at h
        | some n =>
          obtain ⟨ni, nn⟩ := n
          simp only [hc, Bool.and_eq_true, decide_eq_true_eq] at h
          obtain ⟨h1, h2⟩ := h
          subst h1
          exact ⟨a, nn, rfl, hc, h2⟩
    · rintro ⟨a2, nx, hp, hc, hl⟩
      cases hp
      simp [hc, hl]

/-- A pointer heads at most one list. -/
theorem is_list_functional (m : Mem) :
    ∀ (vs ws : List Nat) (p : Ptr), is_list m p vs = true → is_list m p ws = true → vs = ws := by
  intro vs
  induction vs with
  | nil =>
    intro ws p h1 h2
    rw [is_list_nil] at h1
    cases ws with
    | nil => rfl
    | cons w ws =>
      rw [is_list_cons] at h2
      obtain ⟨a, nx, hp, _, _⟩ := h2
      rw [h1] at hp
      cases hp
  | cons v vs ih =>
    intro ws p h1 h2
    rw [is_list_cons] at h1
    obtain ⟨a, nx, hp, hc, hl⟩ := h1
    cases ws with
    | nil =>
      rw [is_list_nil] at h2
      rw [h2] at hp
      cases hp
    | cons w ws =>
      rw [is_list_cons] at h2
      obtain ⟨a2, nx2, hp2, hc2, hl2⟩ := h2
      rw [hp] at hp2
      cases hp2
      rw [hc] at hc2
      cases hc2
      rw [ih ws nx hl hl2]

/-- A list without repetition whose members are below `n` has at most `n` members. -/
theorem nodup_length_le (l : List Nat) (n : Nat) (hnd : l.Nodup) (hlt : ∀ a ∈ l, a < n) :
    l.length ≤ n := by
  have hsub : l.toFinset ⊆ Finset.range n := by
    intro a ha
    rw [List.mem_toFinset] at ha
    exact Finset.mem_range.mpr (hlt a ha)
  calc l.length = l.toFinset.card := (List.toFinset_card_of_nodup hnd).symm
    _ ≤ (Finset.range n).card := Finset.card_le_card hsub
    _ = n := Finset.card_range n

/-- The nodes of a list are distinct cells of the arena. -/
theorem is_list_addrs (m : Mem) :
    ∀ (vs : List Nat) (p : Ptr), is_list m p vs = true →
      ∃ l : List Nat, l.length = vs.length ∧ l.Nodup ∧ (∀ a ∈ l, a < m.cells.length) ∧
        ∀ a ∈ l, ∃ ws, is_list m (Ptr.heap a) ws = true ∧ ws.length ≤ vs.length := by
  intro vs
  induction vs with
  | nil =>
    intro p _
    exact ⟨[], rfl, List.nodup_nil, by simp, by simp⟩
  | cons v vs ih =>
    intro p h
    have h0 := h
    rw [is_list_cons] at h
    obtain ⟨a, nx, hp, hc, hl⟩ := h
    obtain ⟨l, hlen, hnd, hlt, hws⟩ := ih nx hl
    refine ⟨a :: l, by simp [hlen], ?_, ?_, ?_⟩
    · rw [List.nodup_cons]
      refine ⟨?_, hnd⟩
      intro hmem
      obtain ⟨ws, hw, hwl⟩ := hws a hmem
      rw [hp] at h0
      have := is_list_functional m ws (v :: vs) (Ptr.heap a) hw h0
      rw [this] at hwl
      simp at hwl
    · intro b hb
      rw [List.mem_cons] at hb
      rcases hb with hb | hb
      · subst hb
        by_contra hge
        rw [List.getElem?_eq_none (by omega)] at hc
        cases hc
      · exact hlt b hb
    · intro b hb
      rw [List.mem_cons] at hb
      rcases hb with hb | hb
      · subst hb
        rw [hp] at h0
        exact ⟨v :: vs, h0, le_refl _⟩
      · obtain ⟨ws, hw, hwl⟩ := hws b hb
        exact ⟨ws, hw, by simp; omega⟩

/-- A list has at most as many nodes as the arena has cells. -/
theorem is_list_length_le (m : Mem) (vs : List Nat) (p : Ptr) (h : is_list m p vs = true) :
    vs.length ≤ m.cells.length := by
  obtain ⟨l, hlen, hnd, hlt, _⟩ := is_list_addrs m vs p h
  rw [← hlen]
  exact nodup_length_le l m.cells.length hnd hlt

/-- A cell of the arena is still there, unchanged, after `link_after` at another cell. -/
theorem link_after_other (m : Mem) (a vl i b : Nat) (n : node_t) (hb : m.cells[b]? = some (some n))
    (hne : b ≠ a) : (link_after m a vl i).cells[b]? = some (some n) := by
  have hlt : b < m.cells.length := by
    by_contra hge
    rw [List.getElem?_eq_none (by omega)] at hb
    cases hb
  unfold link_after
  simp only
  rw [List.getElem?_set_ne (Ne.symm hne), List.getElem?_append_left hlt]
  exact hb

/-- The cell `link_after` rewrites. -/
theorem link_after_self (m : Mem) (a vl i : Nat) (hlt : a < m.cells.length) :
    (link_after m a vl i).cells[a]? = some (some ⟨vl, Ptr.heap m.cells.length⟩) := by
  unfold link_after
  simp only
  rw [List.getElem?_set_self (by simp; omega)]

/-- The cell `link_after` adds. -/
theorem link_after_new (m : Mem) (a vl i : Nat) (hlt : a < m.cells.length) :
    (link_after m a vl i).cells[m.cells.length]? = some (some ⟨i, Ptr.null⟩) := by
  unfold link_after
  simp only
  rw [List.getElem?_set_ne (by omega)]
  simp

/-- The C `insert_node` after a node that ends its chain. -/
theorem insert_node_at_end (m : Mem) (a vl i : Nat)
    (hc : m.cells[a]? = some (some ⟨vl, Ptr.null⟩)) :
    insert_node m (Ptr.heap a) i = Res.ok (link_after m a vl i) := by
  have hlt : a < m.cells.length := by
    by_contra hge
    rw [List.getElem?_eq_none (by omega)] at hc
    cases hc
  have hc2 : (m.cells ++ [some (node_t.mk i Ptr.null)])[a]? = some (some ⟨vl, Ptr.null⟩) := by
    rw [List.getElem?_append_left hlt]
    exact hc
  simp [insert_node, load_next, hc, malloc_node, store_next, hc2, link_after]

/-- With fuel for every node, `last_node` stops at the node that holds the last value
and ends the chain, and linking a node holding `i` after it gives the list with `i`
added at the end. -/
theorem last_node_fuel_spec (m : Mem) (i : Nat) :
    ∀ (vs : List Nat) (v : Nat) (p : Ptr) (k : Nat), is_list m p (v :: vs) = true →
      vs.length + 1 ≤ k →
      ∃ a vl, (v :: vs).getLast? = some vl ∧ last_node_fuel k m p = Res.ok (Ptr.heap a) ∧
        m.cells[a]? = some (some ⟨vl, Ptr.null⟩) ∧
        is_list (link_after m a vl i) p (v :: vs ++ [i]) = true := by
  intro vs
  induction vs with
  | nil =>
    intro v p k h hk
    rw [is_list_cons] at h
    obtain ⟨a, nx, hp, hc, hl⟩ := h
    rw [is_list_nil] at hl
    subst hl
    subst hp
    have hlt : a < m.cells.length := by
      by_contra hge
      rw [List.getElem?_eq_none (by omega)] at hc
      cases hc
    obtain ⟨k, rfl⟩ : ∃ j, k = j + 1 := ⟨k - 1, by omega⟩
    refine ⟨a, v, rfl, ?_, hc, ?_⟩
    · simp [last_node_fuel, load_next, hc]
    · rw [List.cons_append, is_list_cons]
      refine ⟨a, Ptr.heap m.cells.length, rfl, link_after_self m a v i hlt, ?_⟩
      rw [List.nil_append, is_list_cons]
      exact ⟨m.cells.length, Ptr.null, rfl, link_after_new m a v i hlt, by simp [is_list]⟩
  | cons w ws ih =>
    intro v p k h hk
    rw [is_list_cons] at h
    obtain ⟨b, nx, hp, hc, hl⟩ := h
    subst hp
    have hnx : ∃ c, nx = Ptr.heap c := by
      rw [is_list_cons] at hl
      obtain ⟨c, _, hc1, _, _⟩ := hl
      exact ⟨c, hc1⟩
    obtain ⟨c, hnxc⟩ := hnx
    obtain ⟨k, rfl⟩ : ∃ j, k = j + 1 := ⟨k - 1, by simp at hk; omega⟩
    obtain ⟨a, vl, hlast, hfuel, hca, hlist⟩ := ih w nx k hl (by simp at hk ⊢; omega)
    refine ⟨a, vl, ?_, ?_, hca, ?_⟩
    · rw [List.getLast?_cons_cons]
      exact hlast
    · subst hnxc
      simp [last_node_fuel, load_next, hc]
      exact hfuel
    · have hne : b ≠ a := by
        intro hba
        subst hba
        rw [hc] at hca
        cases hca
        cases hnxc
      rw [List.cons_append, is_list_cons]
      exact ⟨b, nx, rfl, link_after_other m a vl i b ⟨v, nx⟩ hc hne, hlist⟩

/-- C10: for a non-empty list `v0 :: vs` headed by `head`, `last_node` returns the node
that holds the last value and has `next == NULL`; `append_node(head, i)` succeeds, and
the memory afterwards is the old one with one new cell holding `i` and `NULL`, and with
the `next` field of that last node pointing to the new cell.  From the same `head` the
list is now `v0 :: vs ++ [i]` and nothing else, one node longer. -/
theorem append_node_appends (m : Mem) (head : Ptr) (v0 : Nat) (vs : List Nat) (i : Nat)
    (h : is_list m head (v0 :: vs) = true) :
    ∃ a vl,
      (v0 :: vs).getLast? = some vl ∧
      last_node m head = Res.ok (Ptr.heap a) ∧
      m.cells[a]? = some (some ⟨vl, Ptr.null⟩) ∧
      append_node m head i = Res.ok (link_after m a vl i) ∧
      is_list (link_after m a vl i) head (v0 :: vs ++ [i]) = true ∧
      (∀ ws, is_list (link_after m a vl i) head ws = true → ws = v0 :: vs ++ [i]) ∧
      (v0 :: vs ++ [i]).length = (v0 :: vs).length + 1 ∧
      (∀ b n, m.cells[b]? = some (some n) → b ≠ a →
        (link_after m a vl i).cells[b]? = some (some n)) ∧
      (link_after m a vl i).cells[a]? = some (some ⟨vl, Ptr.heap m.cells.length⟩) ∧
      (link_after m a vl i).cells[m.cells.length]? = some (some ⟨i, Ptr.null⟩) ∧
      (link_after m a vl i).cells.length = m.cells.length + 1 := by
  have hlen := is_list_length_le m (v0 :: vs) head h
  obtain ⟨a, vl, hlast, hfuel, hca, hlist⟩ :=
    last_node_fuel_spec m i vs v0 head (m.cells.length + 1) h (by simp at hlen; omega)
  have hln : last_node m head = Res.ok (Ptr.heap a) := hfuel
  have halt : a < m.cells.length := by
    by_contra hge
    rw [List.getElem?_eq_none (by omega)] at hca
    cases hca
  refine ⟨a, vl, hlast, hln, hca, ?_, hlist, ?_, by simp, ?_, link_after_self m a vl i halt,
    link_after_new m a vl i halt, by simp [link_after]⟩
  · unfold append_node
    rw [hln]
    exact insert_node_at_end m a vl i hca
  · intro ws hws
    exact is_list_functional _ ws (v0 :: vs ++ [i]) head hws hlist
  · intro b n hb hne
    exact link_after_other m a vl i b n hb hne

/-- The list `[7, 8]` at nodes 0 and 1, appending 9. -/
theorem append_node_appends_witness :
    is_list mem78 (Ptr.heap 0) (7 :: [8]) = true ∧
    ∃ a vl,
      (7 :: [8]).getLast? = some vl ∧
      last_node mem78 (Ptr.heap 0) = Res.ok (Ptr.heap a) ∧
      mem78.cells[a]? = some (some ⟨vl, Ptr.null⟩) ∧
      append_node mem78 (Ptr.heap 0) 9 = Res.ok (link_after mem78 a vl 9) ∧
      is_list (link_after mem78 a vl 9) (Ptr.heap 0) (7 :: [8] ++ [9]) = true ∧
      (∀ ws, is_list (link_after mem78 a vl 9) (Ptr.heap 0) ws = true → ws = 7 :: [8] ++ [9]) ∧
      (7 :: [8] ++ [9]).length = (7 :: [8]).length + 1 ∧
      (∀ b n, mem78.cells[b]? = some (some n) → b ≠ a →
        (link_after mem78 a vl 9).cells[b]? = some (some n)) ∧
      (link_after mem78 a vl 9).cells[a]? = some (some ⟨vl, Ptr.heap mem78.cells.length⟩) ∧
      (link_after mem78 a vl 9).cells[mem78.cells.length]? = some (some ⟨9, Ptr.null⟩) ∧
      (link_after mem78 a vl 9).cells.length = mem78.cells.length + 1 :=
  ⟨by decide, append_node_appends mem78 (Ptr.heap 0) 7 [8] 9 (by decide)⟩

end Diffexfat
